import Mathlib

/-!
Verification of the `sort_coordinates` tool (`src/main.py`, class
`CoordinatesSorter`).

Shallow embedding notes:
* Python strings are modelled as `List Char` (`Str`); `str.split()` is the
  whitespace tokenizer `tokens`.
* Python numbers are modelled as `ℚ`; Python `/` on a zero denominator raises
  `ZeroDivisionError`, modelled by `pydiv` returning `none`.
* Exceptions that escape a function are modelled as `Except` errors:
  the `KeyError` of `remaining_coords.remove` (bad start index, or the
  `None` nearest coordinate when every query failed) and the uncaught
  `IndexError` of `data[0], data[1]` in `read_coordinates_from_file`.
* The Python `set` of small integer indices is modelled as an ascending
  duplicate-free list (CPython iterates such sets in ascending order), so
  the `for coord in remaining_coords` loop is a left fold over that list.
* The Google-Maps distance-matrix call is abstracted as a provider
  `q : α → α → Option ℚ`: `some d` models an element with status `"OK"`
  and distance value `d`; `none` models any non-OK status.
-/

namespace CoordinatesSorter

/-- Python strings, modelled as lists of characters. -/
abbrev Str := List Char

/-- Value of a non-empty digit string, as produced by Python `int()`. -/
def readNat (ds : Str) : Nat :=
  ds.foldl (fun n c => n * 10 + (c.toNat - 48)) 0

/-- One `\d+` group of the DMS regex: a maximal non-empty run of digits. -/
def takeDigits (s : Str) : Option (Nat × Str) :=
  match s.takeWhile Char.isDigit with
  | [] => none
  | ds => some (readNat ds, s.dropWhile Char.isDigit)

/-- Consume one expected literal character of the DMS regex. -/
def expectChar (c : Char) : Str → Option Str
  | [] => none
  | x :: rest => if x = c then some rest else none

/-- The minutes mark used by the source regex: U+2018, a curly quote,
not the ASCII apostrophe U+0027. -/
def minuteMark : Char := Char.ofNat 8216

/-- The seconds mark used by the source regex: U+201C, a curly double
quote, not the ASCII double quote U+0022. -/
def secondMark : Char := Char.ofNat 8220

/-- The match of the source regex `(\d+)°(\d+)U+2018(\d+)U+201C([NSEW])`
against a prefix of the input (`re.match`: anchored at the start, trailing
characters allowed), returning the four groups. -/
def dmsParse (s : Str) : Option (Nat × Nat × Nat × Char) := do
  let (dg, r1) ← takeDigits s
  let r2 ← expectChar '°' r1
  let (mn, r3) ← takeDigits r2
  let r4 ← expectChar minuteMark r3
  let (sc, r5) ← takeDigits r4
  let r6 ← expectChar secondMark r5
  match r6 with
  | dir :: _ =>
    if dir = 'N' ∨ dir = 'S' ∨ dir = 'E' ∨ dir = 'W' then
      some (dg, mn, sc, dir)
    else
      none
  | [] => none

/-- `CoordinatesSorter.dms_to_decimal`: `none` models the `ValueError`
raised when the regex does not match. -/
def dms_to_decimal (s : Str) : Option ℚ :=
  (dmsParse s).map fun (dg, mn, sc, dir) =>
    let dec : ℚ := (dg : ℚ) + (mn : ℚ) / 60 + (sc : ℚ) / 3600
    if dir = 'S' ∨ dir = 'W' then -dec else dec

/-- Python `str.split()` with no argument: maximal runs of
non-whitespace characters, any whitespace as separator, no empty tokens. -/
def tokens : Str → List Str
  | [] => []
  | c :: cs =>
    if c.isWhitespace then tokens cs
    else
      match cs, tokens cs with
      | [], _ => [[c]]
      | c2 :: _, ts =>
        if c2.isWhitespace then [c] :: ts
        else
          match ts with
          | t :: rest => (c :: t) :: rest
          | [] => [[c]]

/-- A parsed checkpoint: latitude, longitude (decimal degrees) and the
optional free-text label. -/
abbrev Checkpoint := ℚ × ℚ × Option Str

/-- The uncaught exception of `read_coordinates_from_file`: accessing
`data[0]` or `data[1]` on a line with fewer than two tokens raises an
`IndexError` that the `except ValueError` clause does not catch. -/
inductive LineError
  | indexError
deriving DecidableEq

/-- Failure modes of `nearest_neighbor`, each a `KeyError` escaping
`remaining_coords.remove`. -/
inductive RouteError
  | badStart
  | allQueriesFailed
  | interrupted
deriving DecidableEq

/-- `CoordinatesSorter.read_coordinates_from_file`, over the list of lines
of the file. Each line is split; `data[0]`/`data[1]` on a short line raise
an uncaught `IndexError` (modelled as `.error .indexError`); a `ValueError`
from `dms_to_decimal` is caught and the line skipped. -/
def read_coordinates_from_file : List Str → Except LineError (List Checkpoint)
  | [] => .ok []
  | line :: rest =>
    match tokens line with
    | latTok :: lonTok :: extra =>
      let desc : Option Str :=
        if 0 < extra.length then some (List.intercalate [' '] extra) else none
      match dms_to_decimal latTok, dms_to_decimal lonTok with
      | some la, some lo =>
        (read_coordinates_from_file rest).map fun cps => (la, lo, desc) :: cps
      | _, _ => read_coordinates_from_file rest
    | _ => .error .indexError

/-- The per-line outcome of `read_coordinates_from_file` on a line with at
least two tokens: the checkpoint, or `none` when a coordinate fails to
parse and the line is skipped. -/
def parseLine (line : Str) : Option Checkpoint :=
  match tokens line with
  | latTok :: lonTok :: extra =>
    match dms_to_decimal latTok, dms_to_decimal lonTok with
    | some la, some lo =>
      some (la, lo,
        if 0 < extra.length then some (List.intercalate [' '] extra) else none)
    | _, _ => none
  | _ => none

/-- The inner `for coord in remaining_coords` loop of `nearest_neighbor`:
fold over the candidates, keeping the first-seen candidate of strictly
minimal distance; `best = none` models `nearest_coord = None` with
`nearest_distance = inf`, and `qc c = none` models a non-`"OK"` status
(the candidate is skipped). -/
def selGo (qc : Nat → Option ℚ) : Option (Nat × ℚ) → List Nat → Option (Nat × ℚ)
  | best, [] => best
  | best, c :: cs =>
    match qc c with
    | none => selGo qc best cs
    | some d =>
      match best with
      | none => selGo qc (some (c, d)) cs
      | some (_, bd) => if d < bd then selGo qc (some (c, d)) cs else selGo qc best cs

/-- The distance query made by `nearest_neighbor` between the checkpoints
at two indices (`gmaps.distance_matrix(coordinates[cur], coordinates[c])`). -/
def qAt [Inhabited α] (coords : List α) (q : α → α → Option ℚ) (cur c : Nat) : Option ℚ :=
  q (coords.getD cur default) (coords.getD c default)

/-- The `while remaining_coords:` loop of `nearest_neighbor`. `fuel` bounds
the iteration count (always instantiated with `len(coordinates)`, which the
invariant `remaining.length ≤ fuel` shows is sufficient, so `.interrupted`
is unreachable). When every candidate query fails, `nearest_coord` stays
`None` and `remaining_coords.remove(None)` raises a `KeyError`, modelled as
`.error .allQueriesFailed`. -/
def nnGo [Inhabited α] (coords : List α) (q : α → α → Option ℚ) :
    Nat → Nat → List Nat → List Nat → Except RouteError (List Nat)
  | _, _, [], route => .ok route
  | 0, _, _ :: _, _ => .error .interrupted
  | fuel + 1, cur, c0 :: cs, route =>
    match selGo (qAt coords q cur) none (c0 :: cs) with
    | none => .error .allQueriesFailed
    | some (c, _) => nnGo coords q fuel c ((c0 :: cs).erase c) (route ++ [c])

/-- `CoordinatesSorter.nearest_neighbor`. `remaining_coords.remove(start)`
on a start index outside `range(len(coordinates))` raises a `KeyError`,
modelled as `.error .badStart`. -/
def nearest_neighbor [Inhabited α] (coordinates : List α) (start : Nat)
    (q : α → α → Option ℚ) : Except RouteError (List Nat) :=
  let n := coordinates.length
  if start ∈ List.range n then
    nnGo coordinates q n start ((List.range n).erase start) [start]
  else
    .error .badStart

/-- Python `str(None)`: the text written for an absent label. -/
def noneStr : Str := ['N', 'o', 'n', 'e']

/-- One output line of `save_coordinates_to_file`:
`f"{lat} {lon} {description}"`, where `render` models Python's `str` on the
stored numbers and `str(None)` is the literal text `None`. -/
def serializeLine (render : ℚ → Str) (cp : Checkpoint) : Str :=
  render cp.1 ++ ' ' ::
    (render cp.2.1 ++ ' ' ::
      (match cp.2.2 with
       | none => noneStr
       | some d => d))

/-- `CoordinatesSorter.save_coordinates_to_file`, as the list of lines it
writes: one line per route position, in route order. -/
def save_coordinates_to_file (render : ℚ → Str) (coordinates : List Checkpoint)
    (efficient_route : List Nat) : List Str :=
  efficient_route.map fun i => serializeLine render (coordinates.getD i default)

/-- Python `float()` on the decimal strings produced for finite floats:
optional sign, then digits with an optional fractional part. -/
def parseUnsigned (s : Str) : Option ℚ :=
  let ip := s.takeWhile Char.isDigit
  match s.dropWhile Char.isDigit with
  | [] => if ip.length = 0 then none else some (readNat ip)
  | '.' :: fr =>
    if fr.all Char.isDigit ∧ 0 < ip.length + fr.length then
      some ((readNat ip : ℚ) + (readNat fr : ℚ) / (10 : ℚ) ^ fr.length)
    else
      none
  | _ => none

/-- Python `float()` (sign handling). -/
def parseFloat : Str → Option ℚ
  | '-' :: rest => (parseUnsigned rest).map fun x => -x
  | '+' :: rest => parseUnsigned rest
  | s => parseUnsigned s

/-- The parsing pass of `create_map_from_file` on one line:
`lat, lon = map(float, data[:2])` then the optional label. Every failure
on a line (`ValueError` from unpacking fewer than two tokens or from
`float()`) is caught and the line skipped. -/
def parseDecimalLine (line : Str) : Option Checkpoint :=
  match tokens line with
  | latTok :: lonTok :: extra =>
    match parseFloat latTok, parseFloat lonTok with
    | some la, some lo =>
      some (la, lo,
        if 0 < extra.length then some (List.intercalate [' '] extra) else none)
    | _, _ => none
  | _ => none

/-- The coordinate list built by `create_map_from_file` from the lines of
its input file (re-parsing as decimal, not DMS). -/
def create_map_parse (lines : List Str) : List Checkpoint :=
  lines.filterMap parseDecimalLine

/-- Python `/`: raises `ZeroDivisionError` on a zero denominator. -/
def pydiv (a b : ℚ) : Option ℚ :=
  if b = 0 then none else some (a / b)

/-- The `map_center` computation shared by `plot_map` and
`create_map_from_file`: the mean latitude and longitude, dividing by
`len(coordinates)`. -/
def map_center (coordinates : List Checkpoint) : Option (ℚ × ℚ) := do
  let la ← pydiv (coordinates.map fun cp => cp.1).sum (coordinates.length : ℚ)
  let lo ← pydiv (coordinates.map fun cp => cp.2.1).sum (coordinates.length : ℚ)
  pure (la, lo)

/-- How one save/re-parse round trip transforms a checkpoint: coordinates
kept, a present label kept, an absent label turned into the text `None`. -/
def relabel (cp : Checkpoint) : Checkpoint :=
  (cp.1, cp.2.1, some
    (match cp.2.2 with
     | none => noneStr
     | some d => d))

/-- `render` faithfully models Python `str`/`repr` of a stored float at the
value `x`: it round-trips through `float()` and is a single non-empty
whitespace-free token. -/
def goodRender (render : ℚ → Str) (x : ℚ) : Prop :=
  parseFloat (render x) = some x ∧ render x ≠ [] ∧
    ∀ c ∈ render x, c.isWhitespace = false

/-- Squared Euclidean distance, the radicand inside
`CoordinatesSorter.distance` (`math.sqrt((x2-x1)**2 + (y2-y1)**2)`); a
value `d` equals the Euclidean distance iff `0 ≤ d ∧ d ^ 2 = sqDist`. -/
def sqDist (c₁ c₂ : ℚ × ℚ) : ℚ :=
  (c₂.1 - c₁.1) ^ 2 + (c₂.2 - c₁.2) ^ 2

/-- The three collinear test points `(0,0), (1,0), (3,0)`. -/
def coords9 : List (ℚ × ℚ) := [(0, 0), (1, 0), (3, 0)]

/-- A mocked always-OK provider returning the Euclidean distance on the
x-axis points of `coords9` (for points with equal `y`, the Euclidean
distance is `|x₂ - x₁|`). -/
def qE : (ℚ × ℚ) → (ℚ × ℚ) → Option ℚ := fun a b => some |b.1 - a.1|

/-- `"40°26‘46“N"` with the curly minute/second marks the source regex
expects. -/
def dmsCurlyN : Str := ['4', '0', '°', '2', '6', minuteMark, '4', '6', secondMark, 'N']

/-- `"40°26‘46“S"` with the curly minute/second marks the source regex
expects. -/
def dmsCurlyS : Str := ['4', '0', '°', '2', '6', minuteMark, '4', '6', secondMark, 'S']

/-- `"40°26'46\"N"` with the ASCII apostrophe (U+0027) and double quote
(U+0022), the punctuation used by the spec's example. -/
def dmsAsciiN : Str := ['4', '0', '°', '2', '6', Char.ofNat 39, '4', '6', Char.ofNat 34, 'N']

/-- A well-formed input line: `"40°26‘46“N 40°26‘46“S"`. -/
def lineGood : Str := dmsCurlyN ++ ' ' :: dmsCurlyS

/-- A two-token line whose coordinates fail the DMS pattern: `"x y"`. -/
def lineBad2 : Str := ['x', ' ', 'y']

/-- Python `repr` restricted to the float `1.0`: the text `"1.0"`. -/
def renderOne : ℚ → Str := fun _ => ['1', '.', '0']

/-! ## Lemmas about the candidate-selection loop -/

/-- The inner loop leaves `nearest_coord = None` exactly when it started
that way and every candidate query failed. -/
theorem selGo_none_iff (qc : Nat → Option ℚ) :
    ∀ (cands : List Nat) (best : Option (Nat × ℚ)),
      selGo qc best cands = none ↔ best = none ∧ ∀ c ∈ cands, qc c = none := by
  intro cands
  induction cands with
  | nil => intro best; simp [selGo]
  | cons c0 cs ih =>
    intro best
    cases hq : qc c0 with
    | none =>
      simp only [selGo, hq]
      rw [ih]
      constructor
      · rintro ⟨hb, hall⟩
        refine ⟨hb, ?_⟩
        intro c hc
        rcases List.mem_cons.mp hc with rfl | hc
        · exact hq
        · exact hall c hc
      · rintro ⟨hb, hall⟩
        exact ⟨hb, fun c hc => hall c (List.mem_cons_of_mem _ hc)⟩
    | some d0 =>
      cases best with
      | none =>
        simp only [selGo, hq]
        rw [ih]
        constructor
        · rintro ⟨h, _⟩
          cases h
        · rintro ⟨_, hall⟩
          rw [hall c0 (by simp)] at hq
          cases hq
      | some bp =>
        obtain ⟨b, bd⟩ := bp
        simp only [selGo, hq]
        constructor
        · intro h
          exfalso
          split at h
          · exact absurd ((ih _).mp h).1 (by simp)
          · exact absurd ((ih _).mp h).1 (by simp)
        · rintro ⟨h, _⟩
          cases h

/-- Characterization of the inner loop's result: either the incoming best
candidate survives because nothing strictly beats it, or the result is the
first-seen candidate attaining the minimum OK distance: all earlier OK
candidates are strictly farther, all later OK candidates no closer, and it
strictly beats the incoming best. -/
theorem selGo_spec (qc : Nat → Option ℚ) :
    ∀ (cands : List Nat) (best : Option (Nat × ℚ)) (c : Nat) (d : ℚ),
    selGo qc best cands = some (c, d) →
    (best = some (c, d) ∧ ∀ x ∈ cands, ∀ dx, qc x = some dx → d ≤ dx)
    ∨ (qc c = some d
       ∧ (∀ b bd, best = some (b, bd) → d < bd)
       ∧ ∃ pre post, cands = pre ++ c :: post
          ∧ (∀ x ∈ pre, ∀ dx, qc x = some dx → d < dx)
          ∧ (∀ x ∈ post, ∀ dx, qc x = some dx → d ≤ dx)) := by
  intro cands
  induction cands with
  | nil =>
    intro best c d h
    simp only [selGo] at h
    exact Or.inl ⟨h, by simp⟩
  | cons c0 cs ih =>
    intro best c d h
    cases hq : qc c0 with
    | none =>
      simp only [selGo, hq] at h
      rcases ih best c d h with ⟨hb, hmin⟩ | ⟨hqc, hbd, pre, post, heq, hpre, hpost⟩
      · refine Or.inl ⟨hb, ?_⟩
        intro x hx dx hqx
        rcases List.mem_cons.mp hx with rfl | hx
        · rw [hq] at hqx; cases hqx
        · exact hmin x hx dx hqx
      · refine Or.inr ⟨hqc, hbd, c0 :: pre, post, by rw [heq, List.cons_append], ?_, hpost⟩
        intro x hx dx hqx
        rcases List.mem_cons.mp hx with rfl | hx
        · rw [hq] at hqx; cases hqx
        · exact hpre x hx dx hqx
    | some d0 =>
      cases best with
      | none =>
        simp only [selGo, hq] at h
        rcases ih (some (c0, d0)) c d h with ⟨hb, hmin⟩ | ⟨hqc, hbd, pre, post, heq, hpre, hpost⟩
        · obtain ⟨rfl, rfl⟩ : c0 = c ∧ d0 = d := by simpa using hb
          exact Or.inr ⟨hq, by simp, [], cs, rfl, by simp, hmin⟩
        · have hdd0 : d < d0 := hbd c0 d0 rfl
          refine Or.inr ⟨hqc, by simp, c0 :: pre, post, by rw [heq, List.cons_append], ?_, hpost⟩
          intro x hx dx hqx
          rcases List.mem_cons.mp hx with rfl | hx
          · rw [hq] at hqx
            obtain rfl : d0 = dx := by simpa using hqx
            exact hdd0
          · exact hpre x hx dx hqx
      | some bp =>
        obtain ⟨b, bd⟩ := bp
        simp only [selGo, hq] at h
        by_cases hlt : d0 < bd
        · rw [if_pos hlt] at h
          rcases ih (some (c0, d0)) c d h with ⟨hb, hmin⟩ | ⟨hqc, hbd, pre, post, heq, hpre, hpost⟩
          · obtain ⟨rfl, rfl⟩ : c0 = c ∧ d0 = d := by simpa using hb
            refine Or.inr ⟨hq, ?_, [], cs, rfl, by simp, hmin⟩
            intro b' bd' hb'
            obtain ⟨rfl, rfl⟩ : b = b' ∧ bd = bd' := by simpa using hb'
            exact hlt
          · have hdd0 : d < d0 := hbd c0 d0 rfl
            refine Or.inr ⟨hqc, ?_, c0 :: pre, post, by rw [heq, List.cons_append], ?_, hpost⟩
            · intro b' bd' hb'
              obtain ⟨rfl, rfl⟩ : b = b' ∧ bd = bd' := by simpa using hb'
              exact hdd0.trans hlt
            · intro x hx dx hqx
              rcases List.mem_cons.mp hx with rfl | hx
              · rw [hq] at hqx
                obtain rfl : d0 = dx := by simpa using hqx
                exact hdd0
              · exact hpre x hx dx hqx
        · rw [if_neg hlt] at h
          have hble : bd ≤ d0 := le_of_not_lt hlt
          rcases ih (some (b, bd)) c d h with ⟨hb, hmin⟩ | ⟨hqc, hbd, pre, post, heq, hpre, hpost⟩
          · obtain ⟨rfl, rfl⟩ : b = c ∧ bd = d := by simpa using hb
            refine Or.inl ⟨rfl, ?_⟩
            intro x hx dx hqx
            rcases List.mem_cons.mp hx with rfl | hx
            · rw [hq] at hqx
              obtain rfl : d0 = dx := by simpa using hqx
              exact hble
            · exact hmin x hx dx hqx
          · have hdbd : d < bd := hbd b bd rfl
            refine Or.inr ⟨hqc, ?_, c0 :: pre, post, by rw [heq, List.cons_append], ?_, hpost⟩
            · intro b' bd' hb'
              obtain ⟨rfl, rfl⟩ : b = b' ∧ bd = bd' := by simpa using hb'
              exact hdbd
            · intro x hx dx hqx
              rcases List.mem_cons.mp hx with rfl | hx
              · rw [hq] at hqx
                obtain rfl : d0 = dx := by simpa using hqx
                exact lt_of_lt_of_le hdbd hble
              · exact hpre x hx dx hqx

/-! ## The routing loop under a total provider -/

/-- When every query succeeds, the routing loop terminates normally and the
produced route extends the accumulated route by exactly the remaining
indices, in some order. -/
theorem nnGo_ok [Inhabited α] (coords : List α) (q : α → α → Option ℚ)
    (htotal : ∀ a b, (q a b).isSome) :
    ∀ (fuel : Nat) (remaining : List Nat) (cur : Nat) (route : List Nat),
      remaining.length ≤ fuel →
      ∃ r, nnGo coords q fuel cur remaining route = .ok r
        ∧ (route ++ remaining).Perm r ∧ route <+: r := by
  intro fuel
  induction fuel with
  | zero =>
    intro remaining cur route hlen
    have hnil : remaining = [] := List.length_eq_zero.mp (Nat.le_zero.mp hlen)
    subst hnil
    exact ⟨route, rfl, by simp, List.prefix_refl route⟩
  | succ fuel ih =>
    intro remaining cur route hlen
    cases remaining with
    | nil => exact ⟨route, rfl, by simp, List.prefix_refl route⟩
    | cons c0 cs =>
      obtain ⟨⟨c, d⟩, hs⟩ : ∃ cd, selGo (qAt coords q cur) none (c0 :: cs) = some cd := by
        cases hs : selGo (qAt coords q cur) none (c0 :: cs) with
        | some cd => exact ⟨cd, rfl⟩
        | none =>
          have hnone := ((selGo_none_iff _ _ _).mp hs).2 c0 (by simp)
          have hsome := htotal (coords.getD cur default) (coords.getD c0 default)
          rw [qAt] at hnone
          rw [hnone] at hsome
          cases hsome
      have hmem : c ∈ c0 :: cs := by
        rcases selGo_spec _ _ _ _ _ hs with ⟨hb, _⟩ | ⟨_, _, pre, post, heq, _, _⟩
        · cases hb
        · rw [heq]
          exact List.mem_append_right _ (List.mem_cons_self _ _)
      have hlen' : ((c0 :: cs).erase c).length ≤ fuel := by
        rw [List.length_erase_of_mem hmem]
        simp only [List.length_cons] at hlen ⊢
        omega
      obtain ⟨r, hr, hperm, hpre⟩ := ih ((c0 :: cs).erase c) c (route ++ [c]) hlen'
      refine ⟨r, ?_, ?_, ?_⟩
      · simp only [nnGo, hs]
        exact hr
      · have hp1 : (route ++ c0 :: cs).Perm (route ++ c :: (c0 :: cs).erase c) :=
          List.Perm.append_left _ (List.perm_cons_erase hmem)
        have hp2 : route ++ c :: (c0 :: cs).erase c = (route ++ [c]) ++ (c0 :: cs).erase c := by
          simp
        refine hp1.trans ?_
        rw [hp2]
        exact hperm
      · exact (List.prefix_append route [c]).trans hpre

/-- Claim C1: for every non-empty checkpoint list, start index in range,
and provider that always answers OK with a non-negative distance,
`nearest_neighbor` returns a route that is a permutation of all indices,
begins with the start index, and repeats no index. -/
theorem claim_C1_route_permutation [Inhabited α] (coordinates : List α) (start : Nat)
    (q : α → α → Option ℚ)
    (_hne : coordinates ≠ []) (hstart : start < coordinates.length)
    (hq : ∀ a b, ∃ d, q a b = some d ∧ 0 ≤ d) :
    ∃ r, nearest_neighbor coordinates start q = .ok r
      ∧ r.Perm (List.range coordinates.length)
      ∧ r.head? = some start ∧ r.Nodup := by
  have htotal : ∀ a b, (q a b).isSome := by
    intro a b
    obtain ⟨d, hd, _⟩ := hq a b
    rw [hd]
    rfl
  have hmem : start ∈ List.range coordinates.length := List.mem_range.mpr hstart
  have hlen : ((List.range coordinates.length).erase start).length ≤ coordinates.length := by
    rw [List.length_erase_of_mem hmem, List.length_range]
    omega
  obtain ⟨r, hr, hperm, hpre⟩ := nnGo_ok coordinates q htotal coordinates.length
    ((List.range coordinates.length).erase start) start [start] hlen
  have hperm' : (List.range coordinates.length).Perm r := by
    refine (List.perm_cons_erase hmem).trans ?_
    simpa using hperm
  refine ⟨r, ?_, hperm'.symm, ?_, hperm'.nodup (List.nodup_range _)⟩
  · simp only [nearest_neighbor, if_pos hmem]
    exact hr
  · obtain ⟨t, ht⟩ := hpre
    rw [← ht]
    rfl

/-- Witness for C1: two checkpoints, constant distance 1, start 0. -/
theorem claim_C1_witness :
    ∃ r, nearest_neighbor [(0 : ℚ), (1 : ℚ)] 0 (fun _ _ => some 1) = .ok r
      ∧ r.Perm (List.range (List.length [(0 : ℚ), (1 : ℚ)]))
      ∧ r.head? = some 0 ∧ r.Nodup :=
  claim_C1_route_permutation [(0 : ℚ), (1 : ℚ)] 0 (fun _ _ => some 1)
    (by simp) (by simp) (fun _ _ => ⟨1, rfl, by norm_num⟩)

/-- Claim C8: a start index outside `[0, n)` makes `nearest_neighbor` fail
with an error (the `KeyError` of `remaining_coords.remove(start)`) instead
of returning a route. -/
theorem claim_C8_out_of_range_start [Inhabited α] (coordinates : List α) (start : Nat)
    (q : α → α → Option ℚ) (h : coordinates.length ≤ start) :
    nearest_neighbor coordinates start q = .error .badStart := by
  have hnot : start ∉ List.range coordinates.length := by
    intro hc
    exact absurd (List.mem_range.mp hc) (by omega)
  simp only [nearest_neighbor, if_neg hnot]

/-- Witness for C8: one checkpoint, start index 5. -/
theorem claim_C8_witness :
    nearest_neighbor [(0 : ℚ)] 5 (fun _ _ => some 0) = .error .badStart :=
  claim_C8_out_of_range_start [(0 : ℚ)] 5 (fun _ _ => some 0) (by norm_num)

/-- Claim C7 (code bug): on empty input the code does not perform a no-op
route and does divide by zero. `nearest_neighbor [] 0` raises a `KeyError`
(`remaining_coords.remove(start)` on an empty set), and the map-center
aggregate divides by `len(coordinates) = 0`, a `ZeroDivisionError`. -/
theorem claim_C7_empty_input_crashes :
    nearest_neighbor ([] : List Checkpoint) 0 (fun _ _ => some 0) = .error .badStart
    ∧ map_center [] = none :=
  ⟨rfl, rfl⟩

/-- Claim C3: at any step of the routing loop whose distance queries fail
for every unvisited candidate, the routing operation fails with an error
(`nearest_coord` stays `None` and `remaining_coords.remove(None)` raises a
`KeyError`) instead of returning a (truncated) route. The hypothesis is
local to the step: nothing is assumed about queries made at other steps. -/
theorem claim_C3_all_queries_fail [Inhabited α] (coordinates : List α)
    (q : α → α → Option ℚ) (fuel cur c0 : Nat) (cs route : List Nat)
    (hfail : ∀ c ∈ c0 :: cs, qAt coordinates q cur c = none) :
    nnGo coordinates q (fuel + 1) cur (c0 :: cs) route = .error .allQueriesFailed
    ∧ ∀ r, nnGo coordinates q (fuel + 1) cur (c0 :: cs) route ≠ .ok r := by
  have hsel : selGo (qAt coordinates q cur) none (c0 :: cs) = none :=
    (selGo_none_iff _ _ _).mpr ⟨rfl, hfail⟩
  have herr : nnGo coordinates q (fuel + 1) cur (c0 :: cs) route
      = .error .allQueriesFailed := by
    simp only [nnGo, hsel]
  refine ⟨herr, ?_⟩
  intro r hr
  rw [herr] at hr
  cases hr

/-- Witness for C3: a provider that answers OK from checkpoint `(1, 0)`
but fails for every query from checkpoint `(0, 0)`; at the step with
current position 0 and unvisited candidate 1, the loop errors out. -/
theorem claim_C3_witness :
    nnGo [((0 : ℚ), (0 : ℚ)), ((1 : ℚ), (0 : ℚ))]
        (fun a _ => if a.1 = 0 then none else some 1) 2 0 [1] [0]
      = .error .allQueriesFailed
    ∧ ∀ r, nnGo [((0 : ℚ), (0 : ℚ)), ((1 : ℚ), (0 : ℚ))]
        (fun a _ => if a.1 = 0 then none else some 1) 2 0 [1] [0] ≠ .ok r :=
  claim_C3_all_queries_fail [((0 : ℚ), (0 : ℚ)), ((1 : ℚ), (0 : ℚ))]
    (fun a _ => if a.1 = 0 then none else some 1) 1 0 1 [] [0] (by decide)

/-- Claim C5: at each routing step, candidates with failed queries are
excluded, and the index appended to the route is the unvisited candidate
with the minimum OK distance from the current position, ties broken by
first-seen order (all candidates seen earlier are strictly farther). -/
theorem claim_C5_greedy_step [Inhabited α] (coordinates : List α) (q : α → α → Option ℚ)
    (fuel cur : Nat) (remaining route : List Nat) (c : Nat) (d : ℚ)
    (hsel : selGo (qAt coordinates q cur) none remaining = some (c, d)) :
    nnGo coordinates q (fuel + 1) cur remaining route
      = nnGo coordinates q fuel c (remaining.erase c) (route ++ [c])
    ∧ qAt coordinates q cur c = some d
    ∧ (∀ x, qAt coordinates q cur x = none → c ≠ x)
    ∧ (∀ x ∈ remaining, ∀ dx, qAt coordinates q cur x = some dx → d ≤ dx)
    ∧ ∃ pre post, remaining = pre ++ c :: post
        ∧ ∀ x ∈ pre, ∀ dx, qAt coordinates q cur x = some dx → d < dx := by
  rcases selGo_spec _ _ _ _ _ hsel with ⟨hb, _⟩ | ⟨hqc, _, pre, post, heq, hpre, hpost⟩
  · cases hb
  · have hmemr : c ∈ remaining := by
      rw [heq]
      exact List.mem_append_right _ (List.mem_cons_self _ _)
    obtain ⟨c0, cs, hcons⟩ : ∃ c0 cs, remaining = c0 :: cs := by
      cases remaining with
      | nil => cases hmemr
      | cons a l => exact ⟨a, l, rfl⟩
    refine ⟨?_, hqc, ?_, ?_, pre, post, heq, hpre⟩
    · subst hcons
      simp only [nnGo, hsel]
    · intro x hx hcx
      rw [← hcx, hqc] at hx
      cases hx
    · intro x hx dx hqx
      rw [heq] at hx
      rcases List.mem_append.mp hx with hx | hx
      · exact le_of_lt (hpre x hx dx hqx)
      · rcases List.mem_cons.mp hx with rfl | hx
        · rw [hqc] at hqx
          obtain rfl : d = dx := by simpa using hqx
          exact le_refl d
        · exact hpost x hx dx hqx

/-- Witness for C5: one step with a single candidate at distance 0. -/
theorem claim_C5_witness :
    selGo (qAt [(0 : ℚ)] (fun _ _ => some 0) 0) none [1] = some (1, 0)
    ∧ (nnGo [(0 : ℚ)] (fun _ _ => some 0) 1 0 [1] []
        = nnGo [(0 : ℚ)] (fun _ _ => some 0) 0 1 ([1].erase 1) ([] ++ [1])
      ∧ qAt [(0 : ℚ)] (fun _ _ => some 0) 0 1 = some 0
      ∧ (∀ x, qAt [(0 : ℚ)] (fun _ _ => some 0) 0 x = none → 1 ≠ x)
      ∧ (∀ x ∈ [1], ∀ dx, qAt [(0 : ℚ)] (fun _ _ => some 0) 0 x = some dx → 0 ≤ dx)
      ∧ ∃ pre post, [1] = pre ++ 1 :: post
          ∧ ∀ x ∈ pre, ∀ dx, qAt [(0 : ℚ)] (fun _ _ => some 0) 0 x = some dx → 0 < dx) :=
  ⟨rfl, claim_C5_greedy_step [(0 : ℚ)] (fun _ _ => some 0) 0 0 [1] [] 1 0 rfl⟩

/-- Claim C9: with a provider returning the Euclidean distance, the three
collinear points `(0,0), (1,0), (3,0)` from start 0 give route `[0,1,2]`.
The second conjunct checks that the mocked provider does return the
Euclidean distance on these points: a non-negative value whose square is
the radicand of `CoordinatesSorter.distance`. -/
theorem claim_C9_collinear_route :
    nearest_neighbor coords9 0 qE = .ok [0, 1, 2]
    ∧ ∀ a ∈ coords9, ∀ b ∈ coords9,
        ∃ d, qE a b = some d ∧ 0 ≤ d ∧ d ^ 2 = sqDist a b := by
  constructor
  · have h3 : List.range 3 = [0, 1, 2] := rfl
    simp [nearest_neighbor, coords9, h3]
    norm_num [nnGo, selGo, qAt, qE, coords9]
  · intro a ha b hb
    refine ⟨|b.1 - a.1|, rfl, abs_nonneg _, ?_⟩
    have hy : a.2 = b.2 := by
      simp only [coords9, List.mem_cons, List.not_mem_nil, or_false] at ha hb
      rcases ha with rfl | rfl | rfl <;> rcases hb with rfl | rfl | rfl <;> rfl
    have hz : b.2 - a.2 = 0 := by
      rw [← hy, sub_self]
    rw [sqDist, sq_abs, hz]
    ring

/-- Witness for C9: the route, plus the provider checked against the
Euclidean distance on the pair `(0,0), (1,0)`. -/
theorem claim_C9_witness :
    nearest_neighbor coords9 0 qE = .ok [0, 1, 2]
    ∧ ∃ d, qE (0, 0) (1, 0) = some d ∧ 0 ≤ d ∧ d ^ 2 = sqDist (0, 0) (1, 0) :=
  ⟨claim_C9_collinear_route.1,
    claim_C9_collinear_route.2 (0, 0) (by simp [coords9]) (1, 0) (by simp [coords9])⟩

/-- Counterexample for C2: on the spec's example written with the ASCII
apostrophe and double quote, the regex does not match and the code raises
`ValueError` instead of returning `40.446111…`. -/
theorem claim_C2_counterexample : dms_to_decimal dmsAsciiN = none := by decide

/-- Claim C2 (amended): with the curly minute/second marks the source
regex actually uses, conversion is `deg + min/60 + sec/3600`, negated for
direction S or W; `"40°26‘46“N"` yields `40.44611…` and `"40°26‘46“S"`
yields `−40.44611…`. -/
theorem claim_C2_amended :
    (∀ s dg mn sc dir, dmsParse s = some (dg, mn, sc, dir) →
      dms_to_decimal s = some (if dir = 'S' ∨ dir = 'W'
        then -((dg : ℚ) + (mn : ℚ) / 60 + (sc : ℚ) / 3600)
        else (dg : ℚ) + (mn : ℚ) / 60 + (sc : ℚ) / 3600))
    ∧ dms_to_decimal dmsCurlyN = some (40 + 26 / 60 + 46 / 3600)
    ∧ dms_to_decimal dmsCurlyS = some (-(40 + 26 / 60 + 46 / 3600)) := by
  refine ⟨?_, ?_, ?_⟩
  · intro s dg mn sc dir h
    simp [dms_to_decimal, h]
  · have h : dmsParse dmsCurlyN = some (40, 26, 46, 'N') := by decide
    simp [dms_to_decimal, h]
  · have h : dmsParse dmsCurlyS = some (40, 26, 46, 'S') := by decide
    simp [dms_to_decimal, h]

/-- Witness for C2: the general formula applied to the parsed groups of
`"40°26‘46“S"`. -/
theorem claim_C2_witness :
    dms_to_decimal dmsCurlyS
      = some (if ('S' = 'S' ∨ 'S' = 'W')
          then -((((40 : Nat)) : ℚ) + (((26 : Nat)) : ℚ) / 60 + (((46 : Nat)) : ℚ) / 3600)
          else (((40 : Nat)) : ℚ) + (((26 : Nat)) : ℚ) / 60 + (((46 : Nat)) : ℚ) / 3600) :=
  claim_C2_amended.1 dmsCurlyS 40 26 46 'S' (by decide)

/-- Counterexample for C4: a file whose single line has one token. The
claim predicts the malformed line is skipped and an empty checkpoint list
returned, but `data[1]` raises an uncaught `IndexError` that aborts the
whole read: the function returns no list at all. -/
theorem claim_C4_counterexample :
    read_coordinates_from_file [['x']] = .error .indexError
    ∧ ∀ cps, read_coordinates_from_file [['x']] ≠ .ok cps := by
  have h : read_coordinates_from_file [['x']] = .error .indexError := by
    simp [read_coordinates_from_file, tokens]
  refine ⟨h, ?_⟩
  intro cps hc
  rw [h] at hc
  cases hc

/-- Claim C4 (amended): provided every line splits into at least two
tokens, the file is parsed line by line: a line whose DMS coordinates fail
the pattern raises `ValueError`, is caught and skipped, and the output is
the list of successfully parsed checkpoints in file order. (A line with
fewer than two tokens instead raises an uncaught `IndexError` that aborts
the whole read.) -/
theorem claim_C4_amended (lines : List Str)
    (h : ∀ line ∈ lines, 2 ≤ (tokens line).length) :
    read_coordinates_from_file lines = .ok (lines.filterMap parseLine) := by
  induction lines with
  | nil => rfl
  | cons line rest ih =>
    have hline := h line (by simp)
    have hrest : ∀ l ∈ rest, 2 ≤ (tokens l).length :=
      fun l hl => h l (List.mem_cons_of_mem _ hl)
    obtain ⟨t1, t2, extra, htok⟩ : ∃ t1 t2 extra, tokens line = t1 :: t2 :: extra := by
      cases htk : tokens line with
      | nil =>
        rw [htk] at hline
        simp at hline
      | cons a l =>
        cases l with
        | nil =>
          rw [htk] at hline
          simp at hline
        | cons b l2 => exact ⟨a, b, l2, rfl⟩
    cases hla : dms_to_decimal t1 with
    | none =>
      have hpl : parseLine line = none := by
        simp [parseLine, htok, hla]
      simp [read_coordinates_from_file, htok, hla, ih hrest, List.filterMap_cons, hpl]
    | some la =>
      cases hlo : dms_to_decimal t2 with
      | none =>
        have hpl : parseLine line = none := by
          simp [parseLine, htok, hla, hlo]
        simp [read_coordinates_from_file, htok, hla, hlo, ih hrest, List.filterMap_cons, hpl]
      | some lo =>
        have hpl : parseLine line = some (la, lo,
            if 0 < extra.length then some (List.intercalate [' '] extra) else none) := by
          simp [parseLine, htok, hla, hlo]
        simp [read_coordinates_from_file, htok, hla, hlo, ih hrest, List.filterMap_cons, hpl,
          Except.map]

/-- Witness for C4: one well-formed line and one two-token line whose
coordinates fail the DMS pattern; the bad line is skipped. -/
theorem claim_C4_witness :
    read_coordinates_from_file [lineGood, lineBad2]
      = .ok [(40 + 26 / 60 + 46 / 3600, -(40 + 26 / 60 + 46 / 3600), none)] := by
  have T := claim_C4_amended [lineGood, lineBad2] (by decide)
  rw [T]
  have htg : tokens lineGood = [dmsCurlyN, dmsCurlyS] := by decide
  have htb : tokens lineBad2 = [['x'], ['y']] := by decide
  have hn : dmsParse dmsCurlyN = some (40, 26, 46, 'N') := by decide
  have hs : dmsParse dmsCurlyS = some (40, 26, 46, 'S') := by decide
  have hx : dms_to_decimal ['x'] = none := by decide
  have e1 : dms_to_decimal dmsCurlyN = some (40 + 26 / 60 + 46 / 3600) := by
    simp [dms_to_decimal, hn]
  have e2 : dms_to_decimal dmsCurlyS = some (-(40 + 26 / 60 + 46 / 3600)) := by
    simp [dms_to_decimal, hs]
  have p1 : parseLine lineGood
      = some (40 + 26 / 60 + 46 / 3600, -(40 + 26 / 60 + 46 / 3600), none) := by
    simp [parseLine, htg, e1, e2]
  have p2 : parseLine lineBad2 = none := by
    simp [parseLine, htb, hx]
  simp [List.filterMap_cons, p1, p2]

/-! ## Tokenizer lemmas -/

/-- Auxiliary form of `tokens_token` with the head exposed. -/
theorem tokens_single : ∀ (cs : List Char) (c : Char),
    (∀ x ∈ c :: cs, x.isWhitespace = false) → tokens (c :: cs) = [c :: cs] := by
  intro cs
  induction cs with
  | nil =>
    intro c hws
    have hc : c.isWhitespace = false := hws c (by simp)
    simp [tokens, hc]
  | cons c2 cs ih =>
    intro c hws
    have hc : c.isWhitespace = false := hws c (by simp)
    have hc2 : c2.isWhitespace = false := hws c2 (by simp)
    have ih2 : tokens (c2 :: cs) = [c2 :: cs] :=
      ih c2 fun x hx => hws x (List.mem_cons_of_mem _ hx)
    rw [tokens, ih2]
    simp [hc, hc2]

/-- A non-empty whitespace-free string splits into itself as the single
token. -/
theorem tokens_token (t : Str) (hne : t ≠ [])
    (hws : ∀ c ∈ t, c.isWhitespace = false) : tokens t = [t] := by
  cases t with
  | nil => cases hne rfl
  | cons c cs => exact tokens_single cs c hws

/-- Auxiliary form of `tokens_append_token` with the head exposed. -/
theorem tokens_append (r : Str) : ∀ (cs : List Char) (c : Char),
    (∀ x ∈ c :: cs, x.isWhitespace = false) →
    tokens ((c :: cs) ++ ' ' :: r) = (c :: cs) :: tokens r := by
  intro cs
  induction cs with
  | nil =>
    intro c hws
    have hc : c.isWhitespace = false := hws c (by simp)
    have hsp : (' ' : Char).isWhitespace = true := by decide
    simp [tokens, hc, hsp]
  | cons c2 cs ih =>
    intro c hws
    have hc : c.isWhitespace = false := hws c (by simp)
    have hc2 : c2.isWhitespace = false := hws c2 (by simp)
    have ih2 : tokens ((c2 :: cs) ++ ' ' :: r) = (c2 :: cs) :: tokens r :=
      ih c2 fun x hx => hws x (List.mem_cons_of_mem _ hx)
    simp only [List.cons_append] at ih2 ⊢
    rw [tokens, ih2]
    simp [hc, hc2]

/-- Splitting a line that starts with a whitespace-free token followed by a
space yields that token and then the split of the rest. -/
theorem tokens_append_token (t r : Str) (hne : t ≠ [])
    (hws : ∀ c ∈ t, c.isWhitespace = false) :
    tokens (t ++ ' ' :: r) = t :: tokens r := by
  cases t with
  | nil => cases hne rfl
  | cons c cs => exact tokens_append r cs c hws

/-- Joining a single token is that token. -/
theorem intercalate_single (x : Str) : List.intercalate [' '] [x] = x := by
  simp [List.intercalate]

/-! ## Save / re-parse round trip -/

/-- Re-parsing one saved line (as decimal, the way `create_map_from_file`
does) recovers the coordinates exactly and the label up to `relabel`:
a present (normalized) label is kept, an absent one comes back as the
text `None`. -/
theorem parseDecimal_serialize (render : ℚ → Str) (cp : Checkpoint)
    (hla : goodRender render cp.1) (hlo : goodRender render cp.2.1)
    (hlab : ∀ d, cp.2.2 = some d → d ≠ [] ∧ List.intercalate [' '] (tokens d) = d) :
    parseDecimalLine (serializeLine render cp) = some (relabel cp) := by
  obtain ⟨hpla, hnea, hwsa⟩ := hla
  obtain ⟨hplo, hneo, hwso⟩ := hlo
  cases hd : cp.2.2 with
  | none =>
    have ht : tokens (render cp.1 ++ ' ' :: (render cp.2.1 ++ ' ' :: noneStr))
        = render cp.1 :: render cp.2.1 :: [noneStr] := by
      rw [tokens_append_token _ _ hnea hwsa, tokens_append_token _ _ hneo hwso,
        tokens_token noneStr (by decide) (by decide)]
    have hs : serializeLine render cp
        = render cp.1 ++ ' ' :: (render cp.2.1 ++ ' ' :: noneStr) := by
      simp only [serializeLine, hd]
    rw [hs]
    simp only [parseDecimalLine, ht, hpla, hplo]
    simp [relabel, hd, intercalate_single]
  | some d =>
    obtain ⟨hdne, hdnorm⟩ := hlab d hd
    have hlen : 0 < (tokens d).length := by
      cases htk : tokens d with
      | nil =>
        rw [htk] at hdnorm
        simp [List.intercalate] at hdnorm
        exact absurd hdnorm hdne
      | cons u us => simp
    have ht : tokens (render cp.1 ++ ' ' :: (render cp.2.1 ++ ' ' :: d))
        = render cp.1 :: render cp.2.1 :: tokens d := by
      rw [tokens_append_token _ _ hnea hwsa, tokens_append_token _ _ hneo hwso]
    have hs : serializeLine render cp
        = render cp.1 ++ ' ' :: (render cp.2.1 ++ ' ' :: d) := by
      simp only [serializeLine, hd]
    rw [hs]
    simp only [parseDecimalLine, ht, hpla, hplo]
    rw [if_pos hlen, hdnorm]
    simp [relabel, hd]

/-- Claim C10: an absent label is written as the literal text `None`
— the same output line as a checkpoint whose free-text label is the word
`None` — and the written line has exactly three tokens whose label field
is that text. -/
theorem claim_C10_none_label (render : ℚ → Str) (la lo : ℚ) :
    serializeLine render (la, lo, none) = serializeLine render (la, lo, some noneStr)
    ∧ (goodRender render la → goodRender render lo →
        tokens (serializeLine render (la, lo, none)) = [render la, render lo, noneStr]) := by
  constructor
  · rfl
  · intro hla hlo
    obtain ⟨_, hnea, hwsa⟩ := hla
    obtain ⟨_, hneo, hwso⟩ := hlo
    simp only [serializeLine]
    rw [tokens_append_token _ _ hnea hwsa, tokens_append_token _ _ hneo hwso,
      tokens_token noneStr (by decide) (by decide)]

/-- `renderOne` faithfully models `repr(1.0) = "1.0"`. -/
theorem renderOne_good : goodRender renderOne 1 := by
  refine ⟨?_, by decide, by decide⟩
  have key : parseFloat ['1', '.', '0']
      = some (((1 : Nat) : ℚ) + ((0 : Nat) : ℚ) / (10 : ℚ) ^ 1) := rfl
  show parseFloat ['1', '.', '0'] = some 1
  rw [key]
  norm_num

/-- Witness for C10: value 1 rendered as `"1.0"`; the saved line for an
absent label equals the line for the label `"None"` and has the three
tokens `1.0 1.0 None`. -/
theorem claim_C10_witness :
    serializeLine renderOne (1, 1, none) = serializeLine renderOne (1, 1, some noneStr)
    ∧ tokens (serializeLine renderOne (1, 1, none)) = [renderOne 1, renderOne 1, noneStr] :=
  ⟨(claim_C10_none_label renderOne 1 1).1,
    (claim_C10_none_label renderOne 1 1).2 renderOne_good renderOne_good⟩

/-- Counterexample for C6: a checkpoint with an absent label does not
round-trip: saving `(1, 1, None)` and re-parsing as decimal yields the
label `"None"`, not an absent label, so the labels differ. -/
theorem claim_C6_counterexample :
    create_map_parse (save_coordinates_to_file renderOne [(1, 1, none)] [0])
      = [(1, 1, some noneStr)]
    ∧ create_map_parse (save_coordinates_to_file renderOne [(1, 1, none)] [0])
      ≠ [((1 : ℚ), (1 : ℚ), (none : Option Str))] := by
  have hp := parseDecimal_serialize renderOne ((1 : ℚ), (1 : ℚ), (none : Option Str))
    renderOne_good renderOne_good (by intro d hd; cases hd)
  have hsave : save_coordinates_to_file renderOne [(1, 1, none)] [0]
      = [serializeLine renderOne (1, 1, none)] := rfl
  have h : create_map_parse (save_coordinates_to_file renderOne [(1, 1, none)] [0])
      = [(1, 1, some noneStr)] := by
    rw [hsave]
    simp only [create_map_parse, List.filterMap_cons, hp, List.filterMap_nil]
    rfl
  refine ⟨h, ?_⟩
  rw [h]
  simp

/-- Claim C6 (amended): saving a route and re-parsing the file as decimal
(as `create_map_from_file` does) preserves the latitude/longitude pairs
and their order exactly — provided the numeric rendering round-trips
through `float()`, as Python's float repr does — and preserves a present
(whitespace-normalized) label; an absent label however comes back as the
text `None`. -/
theorem claim_C6_amended (render : ℚ → Str) (coordinates : List Checkpoint)
    (route : List Nat)
    (_hidx : ∀ i ∈ route, i < coordinates.length)
    (hrend : ∀ i ∈ route, goodRender render (coordinates.getD i default).1
      ∧ goodRender render (coordinates.getD i default).2.1)
    (hlab : ∀ i ∈ route, ∀ d, (coordinates.getD i default).2.2 = some d →
      d ≠ [] ∧ List.intercalate [' '] (tokens d) = d) :
    create_map_parse (save_coordinates_to_file render coordinates route)
      = route.map fun i => relabel (coordinates.getD i default) := by
  induction route with
  | nil => rfl
  | cons i route ih =>
    have hline := parseDecimal_serialize render (coordinates.getD i default)
      (hrend i (by simp)).1 (hrend i (by simp)).2 (hlab i (by simp))
    have ih' := ih (fun j hj => _hidx j (List.mem_cons_of_mem _ hj))
      (fun j hj => hrend j (List.mem_cons_of_mem _ hj))
      (fun j hj => hlab j (List.mem_cons_of_mem _ hj))
    simp only [save_coordinates_to_file, create_map_parse, List.map_cons,
      List.filterMap_cons, hline] at ih' ⊢
    rw [ih']

/-- Witness for C6: one checkpoint with the label `"a"`, route `[0]`,
value 1 rendered as `"1.0"`. -/
theorem claim_C6_witness :
    create_map_parse (save_coordinates_to_file renderOne [(1, 1, some ['a'])] [0])
      = [0].map fun i => relabel ([(1, 1, some ['a'])].getD i default) := by
  refine claim_C6_amended renderOne [(1, 1, some ['a'])] [0] ?_ ?_ ?_
  · intro i hi
    simp at hi
    simp [hi]
  · intro i hi
    simp at hi
    subst hi
    exact ⟨renderOne_good, renderOne_good⟩
  · intro i hi d hd
    simp at hi
    subst hi
    simp at hd
    subst hd
    refine ⟨by simp, ?_⟩
    rw [tokens_token ['a'] (by simp) (by decide)]
    exact intercalate_single ['a']

end CoordinatesSorter
